import Mathlib

/-!
Shallow embedding of `blog/models.py` from the sensive-blog repository.

The repository declares three Django models (`Post`, `Tag`, `Comment`) with
relations to the framework's `User`, plus two queryset classes
(`PostQuerySet`, `TagQuerySet`) with aggregation helpers.

The embedding represents the database as explicit lists of rows; many-to-many
relations (`Post.likes`, `Post.tags`) are their association tables, i.e. lists
of id pairs.  A queryset that has been evaluated is a list of in-memory row
objects; Python attribute mutation (`post.comments_count = ...`) is modelled by
an `Option`-valued field on the row object that is `none` until assigned.
Python's `KeyError` / `AttributeError` are modelled with `Except String`.
-/

/-- A `Post` row / in-memory object: fields as declared on the `Post` model.
`comments_count` is not a database column; it models the dynamically assigned
attribute set by `fetch_with_comments_count` (absent = `none`). -/
structure PostRow where
  id : Nat
  title : String
  text : String
  slug : String
  image : String
  published_at : Int
  author_id : Nat
  comments_count : Option Nat := none
deriving DecidableEq, Repr

/-- A `Comment` row: fields as declared on the `Comment` model
(`post` and `author` foreign keys stored as ids). -/
structure CommentRow where
  id : Nat
  post_id : Nat
  author_id : Nat
  text : String
  published_at : Int
deriving DecidableEq, Repr

/-- A `Tag` row: the `Tag` model declares only `title`
(plus the implicit `id` primary key). -/
structure TagRow where
  id : Nat
  title : String
deriving DecidableEq, Repr

/-- A `User` row from the framework's auth app (external collaborator):
only the parts the blog models refer to. -/
structure UserRow where
  id : Nat
  username : String
  is_staff : Bool
deriving DecidableEq, Repr

/-- The database state: one list of rows per model table, and one association
table per many-to-many field (`Post.likes` → `post_likes` as
(post id, user id) pairs; `Post.tags` → `post_tags` as (post id, tag id)
pairs, with `related_name='posts'` giving tags the reverse accessor). -/
structure Db where
  posts : List PostRow
  comments : List CommentRow
  tags : List TagRow
  users : List UserRow
  post_likes : List (Nat × Nat)
  post_tags : List (Nat × Nat)
deriving DecidableEq, Repr

/-- Modelled from the spec: the framework's URL reversal (the URL
configuration itself is not under `src/`).  `reverse(name, args)` produces
the URL of the route registered under `name`, filled with the positional
arguments `args`; modelled as the pair of route name and argument list. -/
structure UrlRef where
  route : String
  args : List String
deriving DecidableEq, Repr

/-- Modelled from the spec: `django.urls.reverse` with positional args. -/
def reverse (route : String) (args : List String) : UrlRef :=
  ⟨route, args⟩

/-- Python semantics of passing a dict where a positional-argument sequence is
expected: `reverse(viewname, args=d)` forwards `*d`, and iterating a dict
yields its keys.  So `args={'slug': value}` arrives as the single positional
argument `'slug'`. -/
def pyStarArgs (d : List (String × String)) : List String :=
  d.map Prod.fst

/-- `Post.get_absolute_url`:
`return reverse('post_detail', args={'slug': self.slug})`. -/
def Post.get_absolute_url (p : PostRow) : UrlRef :=
  reverse "post_detail" (pyStarArgs [("slug", p.slug)])

/-- Python attribute lookup on a `Tag` instance: the `Tag` model declares the
`title` field and the implicit `id` primary key, and nothing else; looking up
any other name fails (`AttributeError`), modelled as `none`. -/
def tagGetAttr (t : TagRow) (name : String) : Option String :=
  if name = "id" then some (toString t.id)
  else if name = "title" then some t.title
  else none

/-- `Tag.get_absolute_url`:
`return reverse('tag_filter', args={'tag_title': self.slug})`.
Building the dict evaluates `self.slug` first; on a `Tag` that attribute
lookup fails, so the whole call raises before `reverse` runs. -/
def Tag.get_absolute_url (t : TagRow) : Except String UrlRef :=
  match tagGetAttr t "slug" with
  | some s => .ok (reverse "tag_filter" (pyStarArgs [("tag_title", s)]))
  | none => .error "AttributeError"

/-- Python's `str.lower` on the ASCII range, as used by `Tag.clean`:
characters `'A'..'Z'` map to `'a'..'z'`, everything else is unchanged
(this is `Char.toLower`, applied characterwise). -/
def pyLower (s : String) : String :=
  ⟨s.data.map Char.toLower⟩

/-- `Tag.clean`: `self.title = self.title.lower()`. -/
def Tag.clean (t : TagRow) : TagRow :=
  { t with title := pyLower t.title }

/-- `Comment.post` is declared with `on_delete=models.CASCADE`
(and both many-to-many tables drop the rows of a deleted post), so deleting a
post removes its row, every comment referencing it, and its like/tag links. -/
def deletePost (db : Db) (pid : Nat) : Db :=
  { db with
    posts := db.posts.filter (fun p => p.id ≠ pid)
    comments := db.comments.filter (fun c => c.post_id ≠ pid)
    post_likes := db.post_likes.filter (fun pr => pr.1 ≠ pid)
    post_tags := db.post_tags.filter (fun pr => pr.1 ≠ pid) }

/-- Rows of the `likes` association table for a given post:
`Count('likes')` counts these join rows. -/
def likesCount (db : Db) (pid : Nat) : Nat :=
  (db.post_likes.filter (fun pr => pr.1 = pid)).length

/-- Rows of the `tags` association table for a given tag:
`Count('posts')` (via `related_name='posts'`) counts these join rows. -/
def postsCount (db : Db) (tid : Nat) : Nat :=
  (db.post_tags.filter (fun pr => pr.2 = tid)).length

/-- `Count('comments', distinct=True)` for one post: the number of distinct
comment rows (distinct primary keys) referencing it. -/
def commentsCountDistinct (db : Db) (pid : Nat) : Nat :=
  (((db.comments.filter (fun c => c.post_id = pid)).map (fun c => c.id)).dedup).length

/-- The relation a descending `order_by('-<count>')` sorts by:
earlier elements have a count at least as large. -/
def byCountDesc {α : Type} (a b : α × Nat) : Prop :=
  b.2 ≤ a.2

instance {α : Type} : DecidableRel (byCountDesc (α := α)) :=
  fun a b => inferInstanceAs (Decidable (b.2 ≤ a.2))

instance {α : Type} : IsTotal (α × Nat) byCountDesc :=
  ⟨fun a b => Nat.le_total b.2 a.2⟩

instance {α : Type} : IsTrans (α × Nat) byCountDesc :=
  ⟨fun _ _ _ hab hbc => Nat.le_trans hbc hab⟩

/-- `PostQuerySet.popular`:
`self.annotate(likes_count=Count('likes')).order_by('-likes_count')`.
The annotation is the second component of each pair. -/
def PostQuerySet.popular (db : Db) (qs : List PostRow) : List (PostRow × Nat) :=
  List.insertionSort byCountDesc (qs.map (fun p => (p, likesCount db p.id)))

/-- `TagQuerySet.popular`:
`self.annotate(posts_count=Count('posts')).order_by('-posts_count')`. -/
def TagQuerySet.popular (db : Db) (qs : List TagRow) : List (TagRow × Nat) :=
  List.insertionSort byCountDesc (qs.map (fun t => (t, postsCount db t.id)))

/-- The dict built by `fetch_with_comments_count`:
`post_ids = [post.id for post in posts]`,
`posts_with_comments = Post.objects.filter(id__in=post_ids).annotate(comments_count=Count('comments', distinct=True))`,
`count_for_id = dict(posts_with_comments.values_list('id', 'comments_count'))`. -/
def count_for_id (db : Db) (qs : List PostRow) : List (Nat × Nat) :=
  (db.posts.filter (fun p => (qs.map (fun q => q.id)).contains p.id)).map
    (fun p => (p.id, commentsCountDistinct db p.id))

/-- The mutating loop of `fetch_with_comments_count`:
`for post in posts: post.comments_count = count_for_id[post.id]`.
A missing key raises `KeyError`. -/
def attachCounts (m : List (Nat × Nat)) : List PostRow → Except String (List PostRow)
  | [] => .ok []
  | p :: rest =>
    match m.lookup p.id with
    | some c => (attachCounts m rest).map (fun rs => { p with comments_count := some c } :: rs)
    | none => .error "KeyError"

/-- `PostQuerySet.fetch_with_comments_count`: builds the id-to-count dict with
a separate grouped query over the posts' ids, assigns
`post.comments_count` on each in-memory post, and returns the posts. -/
def PostQuerySet.fetch_with_comments_count (db : Db) (qs : List PostRow) :
    Except String (List PostRow) :=
  attachCounts (count_for_id db qs) qs

/-- A tag object as returned by the prefetch queryset
`Tag.objects.annotate(posts_count=Count('posts'))`. -/
structure AnnotatedTag where
  tag : TagRow
  posts_count : Nat
deriving DecidableEq, Repr

/-- A post with its relations eagerly loaded by
`select_related('author')` / `prefetch_related(Prefetch('tags', ...))`. -/
structure FetchedPost where
  post : PostRow
  author : Option UserRow
  tags : List AnnotatedTag
deriving DecidableEq, Repr

/-- `PostQuerySet.prefetch_with_tags_and_authors`:
`self.select_related('author').prefetch_related(Prefetch('tags', queryset=Tag.objects.annotate(posts_count=Count('posts'))))`.
Each post comes with its author row and its tags, the tags drawn from the
annotated tag queryset (so each carries the count over the whole database). -/
def PostQuerySet.prefetch_with_tags_and_authors (db : Db) (qs : List PostRow) :
    List FetchedPost :=
  qs.map (fun p =>
    { post := p
      author := db.users.find? (fun u => u.id = p.author_id)
      tags := (db.tags.filter (fun t => db.post_tags.contains (p.id, t.id))).map
        (fun t => ⟨t, postsCount db t.id⟩) })

/-- Clearing the dynamically assigned attribute, for stating frame
conditions: everything of a post except `comments_count`. -/
def clearCount (p : PostRow) : PostRow :=
  { p with comments_count := none }

/-- A concrete staff user, for witnesses. -/
def exUser : UserRow := ⟨1, "admin", true⟩

/-- A concrete post with two comments in `exDb`. -/
def exPost1 : PostRow :=
  { id := 1, title := "A", text := "a", slug := "first", image := "i.png",
    published_at := 0, author_id := 1 }

/-- A concrete post with no comments in `exDb`. -/
def exPost2 : PostRow :=
  { id := 2, title := "B", text := "b", slug := "second", image := "j.png",
    published_at := 1, author_id := 1 }

/-- A concrete tag borne by both posts of `exDb`. -/
def exTag : TagRow := ⟨1, "python"⟩

/-- A concrete database: two posts, two comments on the first post, one tag
on both posts, one like on the first post. -/
def exDb : Db :=
  { posts := [exPost1, exPost2]
    comments := [⟨1, 1, 1, "hi", 2⟩, ⟨2, 1, 1, "yo", 3⟩]
    tags := [exTag]
    users := [exUser]
    post_likes := [(1, 1)]
    post_tags := [(1, 1), (2, 1)] }

/-- A concrete post used to evaluate `Post.get_absolute_url`. -/
def examplePost : PostRow :=
  { id := 1, title := "Hello", text := "body", slug := "my-first-post",
    image := "img.png", published_at := 0, author_id := 1 }

theorem map_fst_annot {A B : Type} (f : A -> B) (l : List A) :
    (l.map (fun a => (a, f a))).map Prod.fst = l := by
  induction l with
  | nil => rfl
  | cons a t ih => simp [ih]

theorem toNat_ofNat_lt (n : Nat) (h : n < 55296) : (Char.ofNat n).toNat = n := by
  unfold Char.ofNat
  rw [dif_pos (Or.inl h)]
  simp [Char.ofNatAux, Char.toNat, UInt32.toNat]

theorem toLower_idem (c : Char) : Char.toLower (Char.toLower c) = Char.toLower c := by
  unfold Char.toLower
  by_cases h : 65 ≤ c.toNat ∧ c.toNat ≤ 90
  · rw [if_pos h]
    have hv : (Char.ofNat (c.toNat + 32)).toNat = c.toNat + 32 :=
      toNat_ofNat_lt _ (by omega)
    simp only [hv]
    rw [if_neg (by omega)]
  · rw [if_neg h, if_neg h]

theorem pyLower_idem (s : String) : pyLower (pyLower s) = pyLower s := by
  unfold pyLower
  have h : Char.toLower ∘ Char.toLower = Char.toLower := funext toLower_idem
  simp only [List.map_map, h]

/-- C6: after `Tag.clean` a tag's title is a fixed point of lowercasing
(it equals its own lowercase), and a tag titled "Python" comes out
titled "python". -/
theorem tag_clean_lowercases (t : TagRow) :
    (Tag.clean t).title = pyLower ((Tag.clean t).title) ∧
    (Tag.clean { t with title := "Python" }).title = "python" := by
  constructor
  · show pyLower t.title = pyLower (pyLower t.title)
    exact (pyLower_idem t.title).symm
  · show pyLower "Python" = "python"
    decide

/-- C9: `Tag.get_absolute_url` always raises an attribute-lookup error,
because it reads `self.slug` and the `Tag` model defines no `slug`
field or attribute. -/
theorem tag_get_absolute_url_attribute_error (t : TagRow) :
    Tag.get_absolute_url t = .error "AttributeError" := by
  rfl

/-- C3: `Post.get_absolute_url` passes a dict to the positional-argument
parameter of the reversal.  Star-unpacking a dict yields its keys, so the
route is reversed with the literal string "slug" as the argument, for every
post — not with the post's slug value. -/
theorem post_get_absolute_url_uses_dict_keys :
    Post.get_absolute_url examplePost = reverse "post_detail" ["slug"] ∧
    Post.get_absolute_url examplePost ≠ reverse "post_detail" [examplePost.slug] := by
  decide

/-- C4: `PostQuerySet.popular` returns the queryset's posts (as a
permutation), each annotated with a likes count equal to the number of its
like rows, ordered so that counts are descending. -/
theorem post_popular_correct (db : Db) (qs : List PostRow) :
    ((PostQuerySet.popular db qs).map Prod.fst).Perm qs ∧
    (∀ x ∈ PostQuerySet.popular db qs, x.2 = likesCount db x.1.id) ∧
    (PostQuerySet.popular db qs).Pairwise byCountDesc := by
  refine ⟨?_, ?_, ?_⟩
  · have h := (List.perm_insertionSort byCountDesc
      (qs.map (fun p => (p, likesCount db p.id)))).map Prod.fst
    rw [map_fst_annot] at h
    exact h
  · intro x hx
    have hx' : x ∈ qs.map (fun p => (p, likesCount db p.id)) :=
      (List.perm_insertionSort byCountDesc _).subset hx
    obtain ⟨p, _, rfl⟩ := List.mem_map.mp hx'
    rfl
  · exact List.sorted_insertionSort byCountDesc _

/-- C5: `TagQuerySet.popular` returns the queryset's tags (as a permutation),
each annotated with a posts count equal to the number of its tag-link rows,
ordered so that counts are descending. -/
theorem tag_popular_correct (db : Db) (qs : List TagRow) :
    ((TagQuerySet.popular db qs).map Prod.fst).Perm qs ∧
    (∀ x ∈ TagQuerySet.popular db qs, x.2 = postsCount db x.1.id) ∧
    (TagQuerySet.popular db qs).Pairwise byCountDesc := by
  refine ⟨?_, ?_, ?_⟩
  · have h := (List.perm_insertionSort byCountDesc
      (qs.map (fun t => (t, postsCount db t.id)))).map Prod.fst
    rw [map_fst_annot] at h
    exact h
  · intro x hx
    have hx' : x ∈ qs.map (fun t => (t, postsCount db t.id)) :=
      (List.perm_insertionSort byCountDesc _).subset hx
    obtain ⟨t, _, rfl⟩ := List.mem_map.mp hx'
    rfl
  · exact List.sorted_insertionSort byCountDesc _

/-- C7: after deleting a post, no comment referencing it remains, and exactly
the comments not referencing it are kept. -/
theorem delete_post_removes_comments (db : Db) (pid : Nat) :
    (∀ c ∈ (deletePost db pid).comments, c.post_id ≠ pid) ∧
    (∀ c ∈ db.comments, c.post_id ≠ pid → c ∈ (deletePost db pid).comments) := by
  constructor
  · intro c hc
    have := List.of_mem_filter hc
    simpa using this
  · intro c hc hne
    exact List.mem_filter.mpr ⟨hc, by simpa using hne⟩

theorem lookup_eq_none_iff (m : List (Nat × Nat)) (k : Nat) :
    m.lookup k = none ↔ k ∉ m.map Prod.fst := by
  induction m with
  | nil => simp
  | cons a t ih =>
    by_cases h : k = a.1
    · simp [List.lookup, h]
    · simp [List.lookup, beq_false_of_ne h, ih, h]

theorem lookup_map_keyed (f : Nat → Nat) (l : List PostRow) (k c : Nat)
    (h : (l.map (fun p => (p.id, f p.id))).lookup k = some c) : c = f k := by
  induction l with
  | nil => simp at h
  | cons p t ih =>
    by_cases hk : k = p.id
    · subst hk
      simp [List.lookup] at h
      exact h.symm
    · simp [List.lookup, beq_false_of_ne hk] at h
      exact ih h

theorem count_for_id_keys (db : Db) (qs : List PostRow) :
    (count_for_id db qs).map Prod.fst =
      (db.posts.filter (fun p => (qs.map (fun q => q.id)).contains p.id)).map
        (fun p => p.id) := by
  unfold count_for_id
  rw [List.map_map]
  rfl

theorem count_for_id_lookup_isSome (db : Db) (qs : List PostRow) (p : PostRow)
    (hp : p ∈ qs) (hdb : p.id ∈ db.posts.map (fun q => q.id)) :
    ∃ c, (count_for_id db qs).lookup p.id = some c := by
  have hkey : p.id ∈ (count_for_id db qs).map Prod.fst := by
    rw [count_for_id_keys]
    obtain ⟨q, hq, hqid⟩ := List.mem_map.mp hdb
    refine List.mem_map.mpr ⟨q, List.mem_filter.mpr ⟨hq, ?_⟩, hqid⟩
    have hmem : q.id ∈ qs.map (fun r => r.id) := by
      rw [hqid]; exact List.mem_map.mpr ⟨p, hp, rfl⟩
    simpa using hmem
  cases hl : (count_for_id db qs).lookup p.id with
  | none => exact absurd hkey ((lookup_eq_none_iff _ _).mp hl)
  | some c => exact ⟨c, rfl⟩

theorem attachCounts_ok_spec (m : List (Nat × Nat)) (l : List PostRow) (res : List PostRow)
    (h : attachCounts m l = .ok res) :
    res.length = l.length ∧
    ∀ i (hi : i < res.length) (hl : i < l.length),
      ∃ c, m.lookup (l.get ⟨i, hl⟩).id = some c ∧
        res.get ⟨i, hi⟩ = { l.get ⟨i, hl⟩ with comments_count := some c } := by
  induction l generalizing res with
  | nil =>
    simp only [attachCounts] at h
    cases h
    exact ⟨rfl, fun i hi hl => absurd hl (by simp)⟩
  | cons p t ih =>
    cases hlk : m.lookup p.id with
    | none => simp [attachCounts, hlk] at h
    | some c =>
      cases ht : attachCounts m t with
      | error e => simp [attachCounts, hlk, ht, Except.map] at h
      | ok rs =>
        simp only [attachCounts, hlk, ht, Except.map] at h
        cases h
        obtain ⟨hlen, hget⟩ := ih rs ht
        refine ⟨by simp [hlen], fun i hi hl => ?_⟩
        cases i with
        | zero => exact ⟨c, hlk, rfl⟩
        | succ n =>
          obtain ⟨d, hd, hr⟩ := hget n (by simpa using hi) (by simpa using hl)
          exact ⟨d, hd, hr⟩

theorem attachCounts_error_iff (m : List (Nat × Nat)) (l : List PostRow) :
    (∃ e, attachCounts m l = .error e) ↔ ∃ p ∈ l, m.lookup p.id = none := by
  induction l with
  | nil => simp [attachCounts]
  | cons p t ih =>
    cases hlk : m.lookup p.id with
    | none =>
      constructor
      · intro _
        exact ⟨p, List.mem_cons_self p t, hlk⟩
      · intro _
        exact ⟨"KeyError", by simp [attachCounts, hlk]⟩
    | some c =>
      cases ht : attachCounts m t with
      | error e =>
        constructor
        · intro _
          obtain ⟨q, hq, hqn⟩ := ih.mp ⟨e, ht⟩
          exact ⟨q, List.mem_cons_of_mem p hq, hqn⟩
        · intro _
          exact ⟨e, by simp [attachCounts, hlk, ht, Except.map]⟩
      | ok rs =>
        constructor
        · rintro ⟨e, he⟩
          simp [attachCounts, hlk, ht, Except.map] at he
        · rintro ⟨q, hq, hqn⟩
          rcases List.mem_cons.mp hq with rfl | hq2
          · rw [hqn] at hlk; cases hlk
          · obtain ⟨e, he⟩ := ih.mpr ⟨q, hq2, hqn⟩
            rw [he] at ht; cases ht

/-- C2: `fetch_with_comments_count` raises a key-lookup error exactly when
some post of the input queryset has an id absent from the keys of the
computed id-to-count dict; there is no other failure and no recovery. -/
theorem fetch_with_comments_count_keyerror_iff (db : Db) (qs : List PostRow) :
    (∃ e, PostQuerySet.fetch_with_comments_count db qs = .error e) ↔
    ∃ p ∈ qs, p.id ∉ (count_for_id db qs).map Prod.fst := by
  unfold PostQuerySet.fetch_with_comments_count
  rw [attachCounts_error_iff]
  simp only [lookup_eq_none_iff]

/-- C1: on a queryset of posts each present in the database,
`fetch_with_comments_count` succeeds and returns the posts with
`comments_count` set to the distinct count of comment rows referencing
each post. -/
theorem fetch_with_comments_count_correct (db : Db) (qs : List PostRow)
    (h : ∀ p ∈ qs, p.id ∈ db.posts.map (fun q => q.id)) :
    ∃ res, PostQuerySet.fetch_with_comments_count db qs = .ok res ∧
      res.length = qs.length ∧
      ∀ i (hi : i < res.length) (hq : i < qs.length),
        (res.get ⟨i, hi⟩).comments_count =
          some (commentsCountDistinct db (qs.get ⟨i, hq⟩).id) := by
  have hne : ¬ ∃ p ∈ qs, (count_for_id db qs).lookup p.id = none := by
    rintro ⟨p, hp, hn⟩
    obtain ⟨c, hc⟩ := count_for_id_lookup_isSome db qs p hp (h p hp)
    rw [hn] at hc; cases hc
  cases hres : PostQuerySet.fetch_with_comments_count db qs with
  | error e =>
    unfold PostQuerySet.fetch_with_comments_count at hres
    exact absurd ((attachCounts_error_iff _ _).mp ⟨e, hres⟩) hne
  | ok res =>
    unfold PostQuerySet.fetch_with_comments_count at hres
    obtain ⟨hlen, hget⟩ := attachCounts_ok_spec _ _ res hres
    refine ⟨res, rfl, hlen, fun i hi hq => ?_⟩
    obtain ⟨c, hc, hr⟩ := hget i hi hq
    have hval : c = commentsCountDistinct db (qs.get ⟨i, hq⟩).id := by
      unfold count_for_id at hc
      exact lookup_map_keyed (commentsCountDistinct db) _ _ _ hc
    rw [hr, hval]

/-- C1 witness: a concrete database and queryset satisfying the presence
hypothesis. -/
theorem fetch_with_comments_count_correct_witness :
    ∃ res, PostQuerySet.fetch_with_comments_count exDb [exPost1, exPost2] = .ok res ∧
      res.length = [exPost1, exPost2].length ∧
      ∀ i (hi : i < res.length) (hq : i < [exPost1, exPost2].length),
        (res.get ⟨i, hi⟩).comments_count =
          some (commentsCountDistinct exDb (([exPost1, exPost2].get ⟨i, hq⟩)).id) :=
  fetch_with_comments_count_correct exDb [exPost1, exPost2] (by decide)

/-- C10: when `fetch_with_comments_count` succeeds it returns the very posts
it was given, in order; each result differs from its input only in
`comments_count`, which is set. -/
theorem fetch_with_comments_count_frame (db : Db) (qs : List PostRow) (res : List PostRow)
    (h : PostQuerySet.fetch_with_comments_count db qs = .ok res) :
    res.map clearCount = qs.map clearCount ∧
    ∀ p ∈ res, p.comments_count.isSome := by
  unfold PostQuerySet.fetch_with_comments_count at h
  obtain ⟨hlen, hget⟩ := attachCounts_ok_spec _ _ res h
  constructor
  · apply List.ext_get (by simp [hlen])
    intro n h1 h2
    have hn : n < res.length := by simpa using h1
    have hq : n < qs.length := by simpa using h2
    obtain ⟨c, _, hr⟩ := hget n hn hq
    simp only [List.get_eq_getElem] at hr
    simp [List.getElem_map, clearCount, hr]
  · intro p hp
    obtain ⟨⟨n, hn⟩, rfl⟩ := List.mem_iff_get.mp hp
    obtain ⟨c, _, hr⟩ := hget n hn (by rw [← hlen]; exact hn)
    rw [hr]
    rfl

/-- C10 witness: the frame condition on a concrete run. -/
theorem fetch_with_comments_count_frame_witness :
    [{ exPost1 with comments_count := some 2 }].map clearCount = [exPost1].map clearCount ∧
    ∀ p ∈ [{ exPost1 with comments_count := some 2 }], p.comments_count.isSome :=
  fetch_with_comments_count_frame exDb [exPost1] _ (by rfl)

theorem map_id_fun {A : Type} (l : List A) : l.map (fun a => a) = l := by
  induction l with
  | nil => rfl
  | cons a t ih => simp [ih]

theorem postsCount_eq_posts_bearing (db : Db)
    (hidn : (db.posts.map (fun p => p.id)).Nodup)
    (hptn : db.post_tags.Nodup)
    (hint : ∀ pr ∈ db.post_tags, pr.1 ∈ db.posts.map (fun p => p.id))
    (tid : Nat) :
    postsCount db tid =
      (db.posts.filter (fun p => (p.id, tid) ∈ db.post_tags)).length := by
  have hA : ((db.post_tags.filter (fun pr => pr.2 = tid)).map Prod.fst).Nodup := by
    apply List.Nodup.map_on
    · intro x hx y hy hxy
      have hx2 : x.2 = tid := by simpa using List.of_mem_filter hx
      have hy2 : y.2 = tid := by simpa using List.of_mem_filter hy
      obtain ⟨x1, x2⟩ := x
      obtain ⟨y1, y2⟩ := y
      simp only at hx2 hy2 hxy
      rw [hxy, hx2, hy2]
    · exact List.Nodup.sublist (List.filter_sublist _) hptn
  have hB : ((db.posts.filter (fun p => (p.id, tid) ∈ db.post_tags)).map
      (fun p => p.id)).Nodup :=
    List.Nodup.sublist (List.Sublist.map _ (List.filter_sublist _)) hidn
  have hmem : ∀ x, x ∈ (db.post_tags.filter (fun pr => pr.2 = tid)).map Prod.fst ↔
      x ∈ (db.posts.filter (fun p => (p.id, tid) ∈ db.post_tags)).map (fun p => p.id) := by
    intro x
    constructor
    · intro hx
      obtain ⟨⟨a, b⟩, hpr, rfl⟩ := List.mem_map.mp hx
      have h1 := List.mem_filter.mp hpr
      have hb : b = tid := by simpa using h1.2
      have hx2 : (a, tid) ∈ db.post_tags := by rw [← hb]; exact h1.1
      obtain ⟨p, hp, hpid⟩ := List.mem_map.mp (hint (a, tid) hx2)
      refine List.mem_map.mpr ⟨p, List.mem_filter.mpr ⟨hp, ?_⟩, hpid⟩
      simp only at hpid
      simpa [hpid] using hx2
    · intro hx
      obtain ⟨p, hp, rfl⟩ := List.mem_map.mp hx
      have h1 := List.mem_filter.mp hp
      have hpt : (p.id, tid) ∈ db.post_tags := by simpa using h1.2
      exact List.mem_map.mpr ⟨(p.id, tid), List.mem_filter.mpr ⟨hpt, by simp⟩, rfl⟩
  have hperm := (List.perm_ext_iff_of_nodup hA hB).mpr hmem
  have hlen := hperm.length_eq
  unfold postsCount
  simpa using hlen

/-- C8: `prefetch_with_tags_and_authors` returns the same posts in order; each
carries its author row and its tag rows, and (in a database with unique post
ids, unique tag links, and referentially intact tag links) every prefetched
tag's `posts_count` equals the number of posts bearing that tag. -/
theorem prefetch_tags_authors_correct (db : Db) (qs : List PostRow)
    (hidn : (db.posts.map (fun p => p.id)).Nodup)
    (hptn : db.post_tags.Nodup)
    (hint : ∀ pr ∈ db.post_tags, pr.1 ∈ db.posts.map (fun p => p.id)) :
    ((PostQuerySet.prefetch_with_tags_and_authors db qs).map (fun f => f.post) = qs) ∧
    ∀ f ∈ PostQuerySet.prefetch_with_tags_and_authors db qs,
      f.author = db.users.find? (fun u => u.id = f.post.author_id) ∧
      f.tags.map (fun a => a.tag) =
        db.tags.filter (fun t => db.post_tags.contains (f.post.id, t.id)) ∧
      ∀ a ∈ f.tags,
        a.posts_count =
          (db.posts.filter (fun p => (p.id, a.tag.id) ∈ db.post_tags)).length := by
  constructor
  · unfold PostQuerySet.prefetch_with_tags_and_authors
    rw [List.map_map]
    exact map_id_fun qs
  · intro f hf
    unfold PostQuerySet.prefetch_with_tags_and_authors at hf
    obtain ⟨p, hp, rfl⟩ := List.mem_map.mp hf
    refine ⟨rfl, ?_, ?_⟩
    · rw [List.map_map]
      exact map_id_fun _
    · intro a ha
      obtain ⟨t, ht, rfl⟩ := List.mem_map.mp ha
      simpa using postsCount_eq_posts_bearing db hidn hptn hint t.id

/-- C8 witness: the prefetch result on a concrete database. -/
theorem prefetch_tags_authors_correct_witness :
    ((PostQuerySet.prefetch_with_tags_and_authors exDb [exPost1, exPost2]).map
        (fun f => f.post) = [exPost1, exPost2]) ∧
    ∀ f ∈ PostQuerySet.prefetch_with_tags_and_authors exDb [exPost1, exPost2],
      f.author = exDb.users.find? (fun u => u.id = f.post.author_id) ∧
      f.tags.map (fun a => a.tag) =
        exDb.tags.filter (fun t => exDb.post_tags.contains (f.post.id, t.id)) ∧
      ∀ a ∈ f.tags,
        a.posts_count =
          (exDb.posts.filter (fun p => (p.id, a.tag.id) ∈ exDb.post_tags)).length :=
  prefetch_tags_authors_correct exDb [exPost1, exPost2] (by decide) (by decide) (by decide)
